import Mathlib

set_option maxRecDepth 8000

/-!
Shallow embedding of the CSV/TSV streaming converter
(src/feedFilter/feedFilter.js, with the older variant in src/unnamed/part_000).
JavaScript strings are modelled as lists of characters, byte offsets and
sizes as natural numbers, and the floating-point scores of the delimiter
detector as exact rationals.
-/

namespace FeedFilter

/-- Character class removed by the JavaScript String.prototype.trim:
the WhiteSpace and LineTerminator code points of ECMAScript. -/
def isJsWhitespace (c : Char) : Bool :=
  decide (c = ' ') || decide (c = '\t') || decide (c = '\n') || decide (c = '\r') ||
  decide (c.val = 0x0B) || decide (c.val = 0x0C) || decide (c.val = 0xA0) ||
  decide (c.val = 0x1680) || decide (0x2000 ≤ c.val ∧ c.val ≤ 0x200A) ||
  decide (c.val = 0x2028) || decide (c.val = 0x2029) || decide (c.val = 0x202F) ||
  decide (c.val = 0x205F) || decide (c.val = 0x3000) || decide (c.val = 0xFEFF)

/-- JavaScript String.prototype.trim: drop whitespace from both ends. -/
def jsTrim (l : List Char) : List Char :=
  List.rdropWhile isJsWhitespace (List.dropWhile isJsWhitespace l)

/-- Mirrors removeBOM (feedFilter.js lines 146-151): strip a leading
U+FEFF byte-order mark when the first character code is 0xFEFF. -/
def removeBOM (t : List Char) : List Char :=
  match t with
  | [] => []
  | c :: rest => if c.val = 0xFEFF then rest else c :: rest

/-- JavaScript text.split with the regular expression matching an optional
carriage return followed by a newline: a lone carriage return does not split. -/
def splitRN : List Char → List (List Char)
  | [] => [[]]
  | '\r' :: '\n' :: rest => [] :: splitRN rest
  | '\n' :: rest => [] :: splitRN rest
  | c :: rest =>
    match splitRN rest with
    | [] => [[c]]
    | l :: ls => (c :: l) :: ls

/-- JavaScript String.prototype.split on the tab character. -/
def splitTabs : List Char → List (List Char)
  | [] => [[]]
  | '\t' :: rest => [] :: splitTabs rest
  | c :: rest =>
    match splitTabs rest with
    | [] => [[c]]
    | l :: ls => (c :: l) :: ls

/-! ## Delimiter detector (feedFilter.js lines 79-143, detectDelimiter) -/

/-- The sample: first 10 lines of the text, keeping only non-blank ones
(line 81 of the source). -/
def sampleLines (text : List Char) : List (List Char) :=
  ((splitRN text).take 10).filter (fun l => !(jsTrim l).isEmpty)

/-- Per-line occurrence count of a candidate delimiter outside quoted spans,
with doubled-quote escapes skipped (source lines 93-116). -/
def countOQAux (d : Char) : Bool → List Char → Nat
  | true, '"' :: '"' :: rest => countOQAux d true rest
  | inQ, '"' :: rest => countOQAux d (!inQ) rest
  | inQ, c :: rest => (if inQ = false ∧ c = d then 1 else 0) + countOQAux d inQ rest
  | _, [] => 0

def countOutsideQuotes (d : Char) (line : List Char) : Nat :=
  countOQAux d false line

/-- The list of per-sampled-line counts for one candidate delimiter. -/
def countsOf (d : Char) (text : List Char) : List Nat :=
  (sampleLines text).map (fun l => countOutsideQuotes d l)

/-- Mean per-line count (source line 127), as an exact rational. -/
def avgCount (d : Char) (text : List Char) : ℚ :=
  (((countsOf d text).map (fun n => (n : ℚ))).sum) / ((countsOf d text).length : ℚ)

/-- Variance of the per-line counts (source line 128). -/
def varianceOf (d : Char) (text : List Char) : ℚ :=
  (((countsOf d text).map (fun n => ((n : ℚ) - avgCount d text) ^ 2)).sum) /
    ((countsOf d text).length : ℚ)

/-- Consistency score (source line 129): mean weighted down by variance. -/
def consistency (d : Char) (text : List Char) : ℚ :=
  if 0 < avgCount d text then (1 / (1 + varianceOf d text)) * avgCount d text else 0

/-- A candidate is skipped when its count list is empty or its count on the
first sampled line is zero (source line 124); otherwise it is eligible. -/
def eligibleB (d : Char) (text : List Char) : Bool :=
  !(countsOf d text).isEmpty && !((countsOf d text).head? == some 0)

/-- One step of the best-delimiter fold (source lines 122-135). -/
def detectStep (text : List Char) (st : Char × ℚ) (d : Char) : Char × ℚ :=
  if eligibleB d text = true ∧ st.2 < consistency d text then (d, consistency d text)
  else st

def delimCandidates : List Char := [',', '\t', '|', ';']

/-- Mirrors detectDelimiter (feedFilter.js lines 79-143): comma when the
sample is empty, otherwise the fold over the fixed candidate order with
initial best comma and initial best score -1. -/
def detectDelimiter (text : List Char) : Char :=
  if sampleLines text = [] then ','
  else (delimCandidates.foldl (detectStep text) (',', (-1 : ℚ))).1

/-! ## Quote-aware line parser of the main variant
(feedFilter.js lines 154-181, parseCSVLine): every completed field is
pushed through String.prototype.trim. -/

def parseCSVLineAux (delim : Char) : Nat → List Char → Bool → List Char → List (List Char)
  | _, [], _, cur => [jsTrim cur]
  | 0, _ :: _, _, cur => [jsTrim cur]
  | fuel + 1, c :: rest, inQ, cur =>
    if c = '"' then
      if inQ = true ∧ rest.head? = some '"' then
        parseCSVLineAux delim fuel rest.tail true (cur ++ ['"'])
      else parseCSVLineAux delim fuel rest (!inQ) cur
    else if c = delim ∧ inQ = false then
      jsTrim cur :: parseCSVLineAux delim fuel rest false []
    else parseCSVLineAux delim fuel rest inQ (cur ++ [c])

def parseCSVLine (line : List Char) (delim : Char) : List (List Char) :=
  parseCSVLineAux delim line.length line false []

/-! ## CSV encoder (feedFilter.js lines 1030-1053, formatCSVLine) -/

/-- Double every double-quote character (the replace with doubled quotes
on source line 1047). -/
def escapeDQ : List Char → List Char
  | [] => []
  | c :: rest => if c = '"' then '"' :: '"' :: escapeDQ rest else c :: escapeDQ rest

/-- The quoting test of the source (lines 1038-1043): comma, double quote,
newline, carriage return, or a leading or trailing space character. -/
def needsQuotesB (v : List Char) : Bool :=
  v.contains ',' || v.contains '"' || v.contains '\n' || v.contains '\r' ||
  (v.head? == some ' ') || (v.getLast? == some ' ')

/-- Encoding of one field value (source lines 1031-1051). The null and
undefined guard of line 1032 cannot arise here: fields are always strings. -/
def formatField (v : List Char) : List Char :=
  if needsQuotesB v = true then '"' :: (escapeDQ v ++ ['"']) else v

/-- Mirrors formatCSVLine: encode each field and join with commas. -/
def formatCSVLine (values : List (List Char)) : List Char :=
  List.intercalate [','] (values.map formatField)

/-- The quoting condition as the specification states it, with leading and
trailing whitespace restricted to the space character (the amended reading);
to be compared against the source encoder. -/
def specMustQuote (v : List Char) : Prop :=
  ',' ∈ v ∨ '"' ∈ v ∨ '\n' ∈ v ∨ '\r' ∈ v ∨ v.head? = some ' ' ∨ v.getLast? = some ' '

instance (v : List Char) : Decidable (specMustQuote v) := by
  unfold specMustQuote; infer_instance

/-! ## Robust chunk parser (feedFilter.js lines 184-268, parseCSVData).
The first argument is fuel; it starts at the length of the text and every
step consumes at least one character, so the fuel never runs out. -/

/-- End-of-text flush (source lines 259-265). -/
def flushData (cur : List Char) (line : List (List Char)) : List (List (List Char)) :=
  let line2 := if cur ≠ [] ∨ line ≠ [] then line ++ [cur] else line
  if 0 < line2.length ∧ (1 < line2.length ∨ line2.headD [] ≠ []) then [line2] else []

def MAX_FIELD_SIZE : Nat := 1000000

def parseCSVDataAux (delim : Char) (isTSV : Bool) :
    Nat → List Char → Bool → List Char → List (List Char) → List (List (List Char))
  | _, [], _, cur, line => flushData cur line
  | 0, _ :: _, _, cur, line => flushData cur line
  | fuel + 1, c :: rest, inQ, cur, line =>
    if isTSV = false ∧ c = '"' then
      if inQ = true ∧ rest.head? = some '"' then
        parseCSVDataAux delim isTSV fuel rest.tail true (cur ++ ['"']) line
      else parseCSVDataAux delim isTSV fuel rest (!inQ) cur line
    else if isTSV = true ∧ c = '"' then
      if cur = [] ∧ rest.head? ≠ some delim ∧ rest.head? ≠ some '\n' ∧
          rest.head? ≠ some '\r' then
        parseCSVDataAux delim isTSV fuel rest true cur line
      else if inQ = true ∧ (rest.head? = some delim ∨ rest.head? = some '\n' ∨
          rest.head? = some '\r' ∨ rest.head? = none) then
        parseCSVDataAux delim isTSV fuel rest false cur line
      else if inQ = true ∧ rest.head? = some '"' then
        parseCSVDataAux delim isTSV fuel rest.tail inQ (cur ++ ['"']) line
      else parseCSVDataAux delim isTSV fuel rest inQ (cur ++ ['"']) line
    else if c = delim ∧ inQ = false then
      parseCSVDataAux delim isTSV fuel rest false [] (line ++ [cur])
    else if (c = '\n' ∨ c = '\r') ∧ inQ = false then
      let rest2 := if c = '\r' ∧ rest.head? = some '\n' then rest.tail else rest
      let line2 := line ++ [cur]
      if 0 < line2.length ∧ (1 < line2.length ∨ line2.headD [] ≠ []) then
        line2 :: parseCSVDataAux delim isTSV fuel rest2 false [] []
      else parseCSVDataAux delim isTSV fuel rest2 false [] []
    else
      parseCSVDataAux delim isTSV fuel rest inQ
        (if cur.length < MAX_FIELD_SIZE then cur ++ [c] else cur) line

/-- Mirrors parseCSVData: the TSV literal-quote mode is switched on exactly
when the delimiter is a tab (source line 193). -/
def parseCSVData (text : List Char) (delim : Char) : List (List (List Char)) :=
  parseCSVDataAux delim (delim == '\t') text.length text false [] []

/-! ## Safe-cut search of the export loop (feedFilter.js lines 909-940).
The inner quote-parity loop (lines 918-928) counts unescaped quotes before a
position; the backward scan looks for a terminator outside quotes within the
last 1000 characters. Both are written with explicit fuel so that they
evaluate by kernel reduction; the fuel is always sufficient. -/

def quoteCountF (t : List Char) (i : Nat) : Nat → Nat → Nat
  | 0, _ => 0
  | fuel + 1, j =>
    if j < i then
      if t.getD j ' ' = '"' then
        if j + 1 < t.length ∧ t.getD (j + 1) ' ' = '"' then quoteCountF t i fuel (j + 2)
        else 1 + quoteCountF t i fuel (j + 1)
      else quoteCountF t i fuel (j + 1)
    else 0

/-- Number of unescaped quotes strictly before position i. -/
def quoteCount (t : List Char) (i : Nat) : Nat :=
  quoteCountF t i i 0

def backScanFromF (t : List Char) (stop : Nat) : Nat → Nat → Bool → Option Nat
  | 0, _, _ => none
  | fuel + 1, i, inQ =>
    let c := t.getD i ' '
    let inQ2 := if c = '"' then decide (quoteCount t i % 2 = 1) else inQ
    if (c = '\n' ∨ c = '\r') ∧ inQ2 = false then
      some (if c = '\r' ∧ i + 1 < t.length ∧ t.getD (i + 1) ' ' = '\n' then i + 2 else i + 1)
    else if stop < i then backScanFromF t stop fuel (i - 1) inQ2
    else none

/-- Position of the end of the last complete line found by the backward scan;
the whole buffer when none is found (lastCompleteLineEnd, lines 910-940). -/
def backScanCut (t : List Char) : Nat :=
  if t.length = 0 then 0
  else
    match backScanFromF t (t.length - 1000) t.length (t.length - 1) false with
    | some cut => cut
    | none => t.length

/-! ## Row projection and encoding of the export loop
(feedFilter.js lines 950-964 for the comma path). -/

/-- paddedValues (lines 953-956): exactly headers.length entries, missing
trailing fields becoming empty strings. -/
def paddedRow (hdrs : List (List Char)) (row : List (List Char)) : List (List Char) :=
  (List.range hdrs.length).map (fun j => row.getD j [])

/-- selectedValues (line 958): project the padded row onto the selection. -/
def selectedRow (hdrs : List (List Char)) (sel : List Nat) (row : List (List Char)) :
    List (List Char) :=
  sel.map (fun idx => (paddedRow hdrs row).getD idx [])

/-- The emission filter of line 960: keep a row only when some selected
value is a non-empty string. -/
def rowKeepB (hdrs : List (List Char)) (sel : List Nat) (row : List (List Char)) : Bool :=
  (selectedRow hdrs sel row).any (fun v => !v.isEmpty)

/-- The comma-path row loop (lines 950-964): pad, project, filter, encode. -/
def processRows (hdrs : List (List Char)) (sel : List Nat) :
    List (List (List Char)) → List (List Char)
  | [] => []
  | r :: rs =>
    if 0 < r.length ∧ rowKeepB hdrs sel r = true then
      (formatCSVLine (selectedRow hdrs sel r) ++ ['\n']) :: processRows hdrs sel rs
    else processRows hdrs sel rs

/-! ## Tab-path row handling of the export loop (feedFilter.js lines 809-857). -/

/-- Collapse doubled quotes, the global replace on source line 831. -/
def replaceDQ : List Char → List Char
  | '"' :: '"' :: rest => '"' :: replaceDQ rest
  | c :: rest => c :: replaceDQ rest
  | [] => []

/-- Unwrap a field that starts and ends in a quote (source lines 829-834). -/
def unquoteTSVField (f : List Char) : List Char :=
  if 2 ≤ f.length ∧ f.head? = some '"' ∧ f.getLast? = some '"' then
    replaceDQ (f.drop 1).dropLast
  else f

/-- Tab-path handling of one non-empty line (source lines 819-851): split on
tabs, unquote, pad or truncate to the header length, project, encode. -/
def processTSVLine (hdrs : List (List Char)) (sel : List Nat) (line : List Char) :
    List Char :=
  let values := splitTabs line
  let processed := values.map unquoteTSVField
  let maxF := min processed.length hdrs.length
  let padded := (List.range hdrs.length).map (fun j => if j < maxF then processed.getD j [] else [])
  let selectedV := sel.map (fun idx => padded.getD idx [])
  formatCSVLine selectedV ++ ['\n']

/-- The tab-path line loop (lines 809-857): empty lines are skipped, every
other line is emitted. -/
def processTSVLines (hdrs : List (List Char)) (sel : List Nat) :
    List (List Char) → List (List Char)
  | [] => []
  | l :: ls =>
    if l = [] then processTSVLines hdrs sel ls
    else processTSVLine hdrs sel l :: processTSVLines hdrs sel ls

/-! ## Export orchestrator, comma path (feedFilter.js lines 717-761 and
896-995). The window size is kept as a parameter; the source fixes it to
5 * 1024 * 1024 (line 752). The fuel starts at length + 1 and strictly
exceeds the number of loop iterations, since the offset grows by at least
one per iteration. -/

def exportChunksF (fileText : List Char) (delim : Char) (hdrs : List (List Char))
    (sel : List Nat) (csize : Nat) :
    Nat → Nat → List Char → Bool → List (List Char) × List Char
  | 0, _, remainder, _ => ([], remainder)
  | fuel + 1, offset, remainder, isFirst =>
    if offset < fileText.length ∧ 0 < csize then
      let chunk := (fileText.drop offset).take csize
      let text := if offset = 0 then removeBOM chunk else chunk
      let fullText := remainder ++ text
      let cut := if offset + csize < fileText.length then backScanCut fullText
                 else fullText.length
      let rows := parseCSVData (fullText.take cut) delim
      let outRows := processRows hdrs sel (if isFirst then rows.drop 1 else rows)
      let next := exportChunksF fileText delim hdrs sel csize fuel (offset + csize)
        (fullText.drop cut) false
      (outRows ++ next.1, next.2)
    else ([], remainder)

/-- Mirrors exportFile on the comma path. The result is none exactly on the
early selection-error return of lines 725-728 (showError and return before
any chunk of the file is read); otherwise it is the ordered list of output
parts: the projected encoded header line first (lines 760-761), then one
encoded line per emitted row, then the rows of the flushed remainder
(lines 976-994). -/
def exportFile (fileText : List Char) (delim : Char) (hdrs : List (List Char))
    (sel : List Nat) (csize : Nat) : Option (List (List Char)) :=
  if sel.length = 0 then none
  else
    let headerLine := formatCSVLine (sel.map (fun i => hdrs.getD i [])) ++ ['\n']
    let res := exportChunksF fileText delim hdrs sel csize (fileText.length + 1) 0 [] true
    let tailRows :=
      if jsTrim res.2 ≠ [] then processRows hdrs sel (parseCSVData res.2 delim) else []
    some (headerLine :: (res.1 ++ tailRows))

/-! ## Progress reporting (feedFilter.js lines 968-972 and 860-864). -/

/-- Math.round of (offset / size) * 100, as exact arithmetic:
floor of the ratio plus one half. -/
def jsRound100 (offset size : Nat) : Nat :=
  (200 * offset + size) / (2 * size)

/-- The reported value: Math.min(100, Math.round((offset / size) * 100)). -/
def progressValue (offset size : Nat) : Nat :=
  min 100 (jsRound100 offset size)

def progressReportsF (size csize : Nat) : Nat → Nat → List Nat
  | 0, _ => []
  | fuel + 1, offset =>
    if offset < size ∧ 0 < csize then
      progressValue (offset + csize) size :: progressReportsF size csize fuel (offset + csize)
    else []

/-- The sequence of progress percentages reported by the export loop: one
value per window, computed after the offset has been advanced. -/
def progressReports (size csize : Nat) : List Nat :=
  progressReportsF size csize (size + 1) 0

/-! ## Header reconciliation during file handling
(feedFilter.js lines 393-432 inside handleFile). -/

/-- maxColumns (lines 400-410): scan the parsed rows with index 1 to at most
19 and record the largest deviating field count, starting from the header
length. -/
def sampledMaxColumns (rows : List (List (List Char))) : Nat :=
  let n := (rows.headD []).length
  ((rows.drop 1).take 19).foldl (fun m r => if r.length ≠ n then max m r.length else m) n

/-- The synthetic header appended for column index i (lines 424-431). -/
def extraName (isTab : Bool) (i : Nat) : List Char :=
  if isTab then ("⚠️ Extra_" ++ toString (i + 1)).toList
  else ("Column_" ++ toString (i + 1)).toList

/-- Mirrors the header-extension step of handleFile (lines 418-432): the
header row is the first parsed row, extended once with synthetic names when
the sampled maximum exceeds its length. -/
def extendHeaders (isTab : Bool) (rows : List (List (List Char))) : List (List Char) :=
  let hdr := rows.headD []
  let n := hdr.length
  let maxC := sampledMaxColumns rows
  if n < maxC then hdr ++ (List.range (maxC - n)).map (fun k => extraName isTab (n + k))
  else hdr

/-! ## Concrete inputs used by the claims -/

/-- A comma file whose second row holds a quoted field containing a newline. -/
def c1File : List Char := "a,b\n\"p\nq\",r\n".toList

def c1Hdrs : List (List Char) := ["a".toList, "b".toList]

/-- A comma file whose only data row has two empty fields. -/
def c2File : List Char := "a,b\n,\n".toList

def c4Field : List Char := "He said \"hi\", bye".toList

def c4Encoded : List Char := "\"He said \"\"hi\"\", bye\"".toList

/-- Comma occurs 0, 2, 5 times across the sampled lines, tab 3, 3, 3 times. -/
def c5Sample : List Char := "a\tb\tc\td\n1,2\t3\t4\t,\n,,,,,\t\t\tx".toList

/-- Tab is absent from the first line but scores highest overall. -/
def c5CexText : List Char := "ab\nx\ty\tz".toList

/-- A file of a header, nineteen one-field rows, and a twenty-first data row
with a surplus field. -/
def c6File : List Char :=
  "a\n1\n2\n3\n4\n5\n6\n7\n8\n9\n10\n11\n12\n13\n14\n15\n16\n17\n18\n19\ny,z\n".toList

/-- Comma is absent from the first sampled line but frequent later. -/
def c9CexText : List Char := "ab\nx,y,x,y\nx,y,x,y".toList

def c9WitText : List Char := "a,b\nx\ty".toList

def c10Line : List Char := "\" a \",b".toList

/-! ## Helper lemmas -/

theorem jsTrim_idem (l : List Char) : jsTrim (jsTrim l) = jsTrim l := by
  unfold jsTrim
  have hself : List.dropWhile isJsWhitespace (List.dropWhile isJsWhitespace l) =
      List.dropWhile isJsWhitespace l := List.dropWhile_idempotent _ _
  have hpre := List.rdropWhile_prefix isJsWhitespace (List.dropWhile isJsWhitespace l)
  obtain ⟨t, ht⟩ := hpre
  rcases hB : List.rdropWhile isJsWhitespace (List.dropWhile isJsWhitespace l) with _ | ⟨b, B2⟩
  · simp [List.rdropWhile]
  · rw [hB] at ht
    have hhead : (List.dropWhile isJsWhitespace l).head? = some b := by
      rw [← ht]; rfl
    have hb : isJsWhitespace b = false := by
      have h2 := List.head?_dropWhile_not isJsWhitespace l
      rw [hhead] at h2
      exact h2
    rw [List.dropWhile_cons_of_neg (by simp [hb]), ← hB, List.rdropWhile_idempotent]

theorem formatCSVLine_singleton (v : List Char) : formatCSVLine [v] = formatField v := by
  simp [formatCSVLine, List.intercalate]

theorem needsQuotesB_iff (v : List Char) : needsQuotesB v = true ↔ specMustQuote v := by
  unfold needsQuotesB specMustQuote
  simp
  tauto

theorem consistency_nonneg (d : Char) (text : List Char) : 0 ≤ consistency d text := by
  unfold consistency
  split
  · next h =>
    have hvar : 0 ≤ varianceOf d text := by
      unfold varianceOf
      apply div_nonneg
      · apply List.sum_nonneg
        intro x hx
        simp only [List.mem_map] at hx
        obtain ⟨n, _, rfl⟩ := hx
        positivity
      · positivity
    have h1 : (0 : ℚ) < 1 + varianceOf d text := by linarith
    have h2 : (0 : ℚ) < 1 / (1 + varianceOf d text) := by positivity
    exact mul_nonneg (le_of_lt h2) (le_of_lt h)
  · exact le_refl 0

/-- Invariant of the best-delimiter fold: the best score never decreases,
dominates the score of every eligible candidate already processed, and the
state is either untouched or holds an eligible candidate with its own
score. -/
theorem detectFold_spec (text : List Char) : ∀ (ds : List Char) (st : Char × ℚ),
    st.2 ≤ (ds.foldl (detectStep text) st).2 ∧
    (∀ d ∈ ds, eligibleB d text = true →
      consistency d text ≤ (ds.foldl (detectStep text) st).2) ∧
    (ds.foldl (detectStep text) st = st ∨
      (eligibleB (ds.foldl (detectStep text) st).1 text = true ∧
        (ds.foldl (detectStep text) st).2 =
          consistency (ds.foldl (detectStep text) st).1 text)) ∧
    ((ds.foldl (detectStep text) st).1 = st.1 ∨
      (ds.foldl (detectStep text) st).1 ∈ ds) := by
  intro ds
  induction ds with
  | nil =>
    intro st
    refine ⟨le_refl _, ?_, Or.inl rfl, Or.inl rfl⟩
    intro d hd
    cases hd
  | cons d ds ih =>
    intro st
    obtain ⟨h1, h2, h3, h4⟩ := ih (detectStep text st d)
    rw [List.foldl_cons]
    by_cases hc : eligibleB d text = true ∧ st.2 < consistency d text
    · have hs : detectStep text st d = (d, consistency d text) := by
        unfold detectStep
        rw [if_pos hc]
      refine ⟨?_, ?_, ?_, ?_⟩
      · refine le_trans ?_ h1
        rw [hs]
        exact le_of_lt hc.2
      · intro e he helig
        rcases List.mem_cons.mp he with rfl | hemem
        · refine le_trans ?_ h1
          rw [hs]
        · exact h2 e hemem helig
      · rcases h3 with h3 | h3
        · right
          rw [h3, hs]
          exact ⟨hc.1, rfl⟩
        · right
          exact h3
      · rcases h4 with h4 | h4
        · right
          rw [h4, hs]
          exact List.mem_cons_self d ds
        · right
          exact List.mem_cons_of_mem d h4
    · have hs : detectStep text st d = st := by
        unfold detectStep
        rw [if_neg hc]
      rw [hs]
      obtain ⟨g1, g2, g3, g4⟩ := ih st
      refine ⟨g1, ?_, g3, ?_⟩
      · intro e he helig
        rcases List.mem_cons.mp he with rfl | hemem
        · push_neg at hc
          exact le_trans (hc helig) g1
        · exact g2 e hemem helig
      · rcases g4 with g4 | g4
        · left
          exact g4
        · right
          exact List.mem_cons_of_mem d g4

theorem detect_eq_fold (text : List Char) (h : sampleLines text ≠ []) :
    detectDelimiter text = (delimCandidates.foldl (detectStep text) (',', (-1 : ℚ))).1 := by
  unfold detectDelimiter
  rw [if_neg h]

/-- When every candidate is skipped, the fold never updates and the default
comma is returned. -/
theorem detect_fallback (text : List Char)
    (h : ∀ d ∈ delimCandidates, eligibleB d text = false) : detectDelimiter text = ',' := by
  by_cases hs : sampleLines text = []
  · unfold detectDelimiter
    rw [if_pos hs]
  · rw [detect_eq_fold text hs]
    obtain ⟨h1, h2, h3, h4⟩ := detectFold_spec text delimCandidates (',', (-1 : ℚ))
    rcases h3 with h3 | h3
    · rw [h3]
    · exfalso
      have hmem : (delimCandidates.foldl (detectStep text) (',', (-1 : ℚ))).1 ∈
          delimCandidates := by
        rcases h4 with h4 | h4
        · rw [h4]
          decide
        · exact h4
      have := h _ hmem
      rw [this] at h3
      exact Bool.noConfusion h3.1

/-- The returned delimiter is eligible and its score dominates the score of
every eligible candidate, whenever some eligible candidate exists. -/
theorem detect_argmax (text : List Char) (d : Char) (hd : d ∈ delimCandidates)
    (he : eligibleB d text = true) :
    consistency d text ≤ consistency (detectDelimiter text) text ∧
    eligibleB (detectDelimiter text) text = true := by
  have hs : sampleLines text ≠ [] := by
    intro hnil
    unfold eligibleB countsOf at he
    rw [hnil] at he
    simp at he
  rw [detect_eq_fold text hs]
  obtain ⟨h1, h2, h3, h4⟩ := detectFold_spec text delimCandidates (',', (-1 : ℚ))
  have hle := h2 d hd he
  rcases h3 with h3 | h3
  · exfalso
    rw [h3] at hle
    have hle2 : consistency d text ≤ -1 := hle
    have := consistency_nonneg d text
    linarith
  · rw [h3.2] at hle
    exact ⟨hle, h3.1⟩

/-- A skipped candidate other than comma is never returned. -/
theorem detect_not_skipped (text : List Char) (d : Char) (_hd : d ∈ delimCandidates)
    (hne : d ≠ ',') (he : eligibleB d text = false) : detectDelimiter text ≠ d := by
  intro hEq
  by_cases hs : sampleLines text = []
  · unfold detectDelimiter at hEq
    rw [if_pos hs] at hEq
    exact hne hEq.symm
  · rw [detect_eq_fold text hs] at hEq
    obtain ⟨h1, h2, h3, h4⟩ := detectFold_spec text delimCandidates (',', (-1 : ℚ))
    rcases h3 with h3 | h3
    · rw [h3] at hEq
      exact hne hEq.symm
    · rw [hEq] at h3
      rw [he] at h3
      exact Bool.noConfusion h3.1

/-! ## Claim theorems -/

/-- Claim C7 (confirmed): with an empty column selection the export fails at
the selection check, before any byte of the input is consulted, and no output
parts exist: the result is the error value for every input text, delimiter,
header list and window size, and never a list of output parts. -/
theorem claim_C7_empty_selection :
    ∀ (fileText : List Char) (delim : Char) (hdrs : List (List Char)) (csize : Nat),
      exportFile fileText delim hdrs [] csize = none ∧
      ∀ out, exportFile fileText delim hdrs [] csize ≠ some out := by
  intro fileText delim hdrs csize
  constructor
  · simp [exportFile]
  · intro out h
    simp [exportFile] at h

/-- Claim C1 (code_bug): the export pipeline is not window-size invariant.
On the file a,b then a row whose first field is quoted and contains a
newline, a 20-character window yields the correct single data row while a
7-character window cuts inside the quoted span (the backward scan of lines
916-939 starts with inQuotes false and accepts the quoted newline as a row
terminator, contradicting the comment that the cut must not be inside
quotes) and splits the row in two. -/
theorem claim_C1_divergence :
    exportFile c1File ',' c1Hdrs [0, 1] 20 =
      some ["a,b\n".toList, "\"p\nq\",r\n".toList] ∧
    exportFile c1File ',' c1Hdrs [0, 1] 7 =
      some ["a,b\n".toList, "\"p\n\",\n".toList, "\"q,r\n\",\n".toList] ∧
    exportFile c1File ',' c1Hdrs [0, 1] 7 ≠ exportFile c1File ',' c1Hdrs [0, 1] 20 := by
  decide

/-- Claim C2 counterexample: the comma path drops a parsed data row whose
selected projected values are all empty. The file a,b newline comma has one
parsed data row (two empty fields), yet the export output holds only the
header line. -/
theorem claim_C2_counterexample :
    exportFile c2File ',' c1Hdrs [0, 1] 100 = some ["a,b\n".toList] ∧
    (parseCSVData c2File ',').length = 2 ∧
    (parseCSVData c2File ',').getD 1 [] = [[], []] := by
  decide

/-- Claim C3 counterexample: a field with a leading tab has leading
whitespace yet is emitted verbatim, not quote-wrapped, so quoting is not
triggered by general leading whitespace. -/
theorem claim_C3_counterexample :
    formatField ['\t', 'a'] = ['\t', 'a'] ∧ isJsWhitespace '\t' = true ∧
    formatField ['\t', 'a'] ≠ '"' :: (escapeDQ ['\t', 'a'] ++ ['"']) := by
  decide

/-- Claim C3 (corrected): the encoder wraps a field in double quotes with
internal quotes doubled exactly when it contains a comma, a double quote, a
newline or a carriage return, or has a leading or trailing space character;
otherwise the field is emitted verbatim. -/
theorem claim_C3_amended : ∀ v : List Char,
    (specMustQuote v → formatField v = '"' :: (escapeDQ v ++ ['"'])) ∧
    (¬specMustQuote v → formatField v = v) := by
  intro v
  constructor
  · intro h
    unfold formatField
    rw [if_pos ((needsQuotesB_iff v).mpr h)]
  · intro h
    unfold formatField
    rw [if_neg (by simp [needsQuotesB_iff v, h])]

/-- Witness for claim C3: the amended theorem applied to a field containing
a comma. -/
theorem claim_C3_witness :
    formatField "a,b".toList = '"' :: (escapeDQ "a,b".toList ++ ['"']) :=
  (claim_C3_amended ("a,b".toList)).1 (by decide)

/-- Claim C4 counterexample: the round trip is not the identity on a field
with a leading space: the parser trims the decoded field. -/
theorem claim_C4_counterexample :
    parseCSVLine (formatCSVLine [" x".toList]) ',' = ["x".toList] ∧
    "x".toList ≠ " x".toList := by
  decide

/-- Claim C5 counterexample: tab is the only candidate with a positive
score on this sample, yet the detector returns comma, because tab is absent
from the first sampled line and is therefore skipped. -/
theorem claim_C5_counterexample :
    detectDelimiter c5CexText = ',' ∧ consistency '\t' c5CexText = 1 / 2 ∧
    consistency ',' c5CexText = 0 ∧ consistency '|' c5CexText = 0 ∧
    consistency ';' c5CexText = 0 := by
  have htab : countsOf '\t' c5CexText = [0, 2] := by decide
  have havgt : avgCount '\t' c5CexText = 1 := by
    simp only [avgCount, htab]
    norm_num
  have hvart : varianceOf '\t' c5CexText = 1 := by
    simp only [varianceOf, htab, havgt]
    norm_num
  have hconst : consistency '\t' c5CexText = 1 / 2 := by
    simp only [consistency, havgt, hvart]
    norm_num
  have hzero : ∀ d, countsOf d c5CexText = [0, 0] → consistency d c5CexText = 0 := by
    intro d hc
    have havg : avgCount d c5CexText = 0 := by
      simp only [avgCount, hc]
      norm_num
    simp only [consistency, havg]
    norm_num
  refine ⟨?_, hconst, hzero ',' (by decide), hzero '|' (by decide), hzero ';' (by decide)⟩
  exact detect_fallback c5CexText (by decide)

/-- Claim C6 counterexample: in a session whose twenty-first data row is the
first with a surplus field, the header is never extended and the surplus
field value z appears nowhere in the 21 output parts, although the row
itself is exported. -/
theorem claim_C6_counterexample :
    extendHeaders false (parseCSVData c6File ',') = ["a".toList] ∧
    ((parseCSVData c6File ',').getD 20 []).length = 2 ∧
    (exportFile c6File ',' (extendHeaders false (parseCSVData c6File ','))
        [0] 1000).map (fun ps => (ps.length, ps.flatten.contains 'z')) =
      some (21, false) := by
  decide

/-- Claim C8 counterexample: with the source window size 5242880 and a file
of 5242881 bytes, the report after the first window is already 100 although
one byte of input remains, so 100 is not reported exactly at end-of-input. -/
theorem claim_C8_counterexample :
    progressReports 5242881 5242880 = [100, 100] ∧
    progressValue 5242880 5242881 = 100 ∧ 5242880 < 5242881 := by
  decide

/-- Claim C9 counterexample: comma has zero occurrences on the first
sampled line and occurs three times on each later line, yet the detector
returns comma (as the default fallback). -/
theorem claim_C9_counterexample :
    detectDelimiter c9CexText = ',' ∧ countsOf ',' c9CexText = [0, 3, 3] := by
  exact ⟨detect_fallback c9CexText (by decide), by decide⟩

/-- Claim C9 (corrected): a candidate other than comma whose occurrence
count on the first sampled non-blank line is zero is never returned by the
detector; comma itself can still come back as the default fallback. -/
theorem claim_C9_amended : ∀ (text : List Char) (d : Char), d ∈ delimCandidates →
    d ≠ ',' → (countsOf d text).head? = some 0 → detectDelimiter text ≠ d := by
  intro text d hd hne hz
  apply detect_not_skipped text d hd hne
  unfold eligibleB
  rw [hz]
  simp

/-- Witness for claim C9: tab is absent from the first sampled line of the
witness text, so the detector does not return tab there. -/
theorem claim_C9_witness : detectDelimiter c9WitText ≠ '\t' :=
  claim_C9_amended c9WitText '\t' (by decide) (by decide) (by decide)

/-- Claim C5 (corrected): the detector returns a candidate of maximal
consistency score (mean per-line count outside quotes, weighted down by the
variance across lines) among the candidates whose count on the first
sampled line is nonzero; comma is returned when no candidate is eligible.
On the sample with comma counts 0, 2, 5 and tab counts 3, 3, 3 the detector
returns tab. -/
theorem claim_C5_amended :
    (∀ (text : List Char) (d : Char), d ∈ delimCandidates → eligibleB d text = true →
      consistency d text ≤ consistency (detectDelimiter text) text ∧
      eligibleB (detectDelimiter text) text = true) ∧
    (∀ text : List Char, (∀ d ∈ delimCandidates, eligibleB d text = false) →
      detectDelimiter text = ',') ∧
    countsOf ',' c5Sample = [0, 2, 5] ∧ countsOf '\t' c5Sample = [3, 3, 3] ∧
    detectDelimiter c5Sample = '\t' := by
  refine ⟨fun text d hd he => detect_argmax text d hd he,
    fun text h => detect_fallback text h, by decide, by decide, ?_⟩
  have e1 : eligibleB ',' c5Sample = false := by decide
  have e2 : eligibleB '\t' c5Sample = true := by decide
  have e3 : eligibleB '|' c5Sample = false := by decide
  have e4 : eligibleB ';' c5Sample = false := by decide
  have hc : countsOf '\t' c5Sample = [3, 3, 3] := by decide
  have havg : avgCount '\t' c5Sample = 3 := by
    simp only [avgCount, hc]
    norm_num
  have hvar : varianceOf '\t' c5Sample = 0 := by
    simp only [varianceOf, hc, havg]
    norm_num
  have hcons : consistency '\t' c5Sample = 3 := by
    simp only [consistency, havg, hvar]
    norm_num
  have hskip : ∀ st : Char × ℚ, ∀ d, eligibleB d c5Sample = false →
      detectStep c5Sample st d = st := by
    intro st d hd
    unfold detectStep
    rw [if_neg]
    rintro ⟨h1, _⟩
    rw [hd] at h1
    exact Bool.noConfusion h1
  have hs : sampleLines c5Sample ≠ [] := by decide
  rw [detect_eq_fold c5Sample hs]
  simp only [delimCandidates, List.foldl_cons, List.foldl_nil]
  rw [hskip _ ',' e1]
  have hup : detectStep c5Sample (',', (-1 : ℚ)) '\t' = ('\t', (3 : ℚ)) := by
    unfold detectStep
    rw [if_pos ⟨e2, by rw [hcons]; norm_num⟩, hcons]
  rw [hup, hskip _ '|' e3, hskip _ ';' e4]

/-- Witness for claim C5: tab is eligible on the sample, so its score is
dominated by the score of the returned delimiter, which is eligible too. -/
theorem claim_C5_witness :
    consistency '\t' c5Sample ≤ consistency (detectDelimiter c5Sample) c5Sample ∧
    eligibleB (detectDelimiter c5Sample) c5Sample = true :=
  claim_C5_amended.1 c5Sample '\t' (by decide) (by decide)

/-- Claim C2 (corrected): in the comma path a parsed row is emitted exactly
when it is non-empty and some selected projected value is a non-empty
string, so a row all of whose selected values are empty is silently
dropped; every surviving row yields exactly one output line. In the tab
path every non-empty line yields exactly one output line. -/
theorem claim_C2_amended :
    (∀ hdrs sel rows, processRows hdrs sel rows =
      (rows.filter (fun r => decide (0 < r.length) && rowKeepB hdrs sel r)).map
        (fun r => formatCSVLine (selectedRow hdrs sel r) ++ ['\n'])) ∧
    (∀ hdrs sel lines, processTSVLines hdrs sel lines =
      (lines.filter (fun l => !l.isEmpty)).map (processTSVLine hdrs sel)) := by
  constructor
  · intro hdrs sel rows
    induction rows with
    | nil => rfl
    | cons r rs ih =>
      by_cases h : 0 < r.length ∧ rowKeepB hdrs sel r = true
      · have hp : (decide (0 < r.length) && rowKeepB hdrs sel r) = true := by
          simp [h.1, h.2]
        simp only [processRows, List.filter_cons, hp, if_true, List.map_cons]
        rw [if_pos h, ih]
      · have hp : (decide (0 < r.length) && rowKeepB hdrs sel r) = false := by
          cases hrk : rowKeepB hdrs sel r with
          | false => simp
          | true =>
            have h1 : ¬0 < r.length := fun h1 => h ⟨h1, hrk⟩
            simp [h1]
        simp only [processRows, List.filter_cons, hp, if_false]
        rw [if_neg h, ih]
        simp
  · intro hdrs sel lines
    induction lines with
    | nil => rfl
    | cons l ls ih =>
      by_cases h : l = []
      · subst h
        simp only [processTSVLines, List.filter_cons]
        simp [ih]
      · simp only [processTSVLines, List.filter_cons]
        rw [if_neg h, ih]
        have : (!l.isEmpty) = true := by
          simp [List.isEmpty_iff, h]
        simp [this]

theorem jsRound100_mono (size : Nat) {o1 o2 : Nat} (h : o1 ≤ o2) :
    jsRound100 o1 size ≤ jsRound100 o2 size := by
  unfold jsRound100
  exact Nat.div_le_div_right (by omega)

theorem progressValue_mono (size : Nat) {o1 o2 : Nat} (h : o1 ≤ o2) :
    progressValue o1 size ≤ progressValue o2 size := by
  unfold progressValue
  exact min_le_min (le_refl 100) (jsRound100_mono size h)

theorem progressValue_le_100 (o size : Nat) : progressValue o size ≤ 100 :=
  min_le_left _ _

theorem progressValue_at_end (o size : Nat) (h0 : 0 < size) (h : size ≤ o) :
    progressValue o size = 100 := by
  unfold progressValue jsRound100
  have h1 : 100 ≤ (200 * o + size) / (2 * size) := by
    rw [Nat.le_div_iff_mul_le (by omega)]
    omega
  exact Nat.min_eq_left h1

theorem progressReportsF_head (size csize fuel o : Nat) :
    (progressReportsF size csize fuel o).head? = none ∨
    (progressReportsF size csize fuel o).head? = some (progressValue (o + csize) size) := by
  cases fuel with
  | zero => left; rfl
  | succ fuel =>
    unfold progressReportsF
    split
    · right; rfl
    · left; rfl

theorem progressReportsF_chain (size csize : Nat) :
    ∀ fuel offset, List.Chain' (· ≤ ·) (progressReportsF size csize fuel offset) := by
  intro fuel
  induction fuel with
  | zero => intro o; simp [progressReportsF]
  | succ fuel ih =>
    intro o
    unfold progressReportsF
    split
    · apply List.chain'_cons'.mpr
      refine ⟨?_, ih (o + csize)⟩
      intro y hy
      rcases progressReportsF_head size csize fuel (o + csize) with hh | hh
      · rw [hh] at hy
        cases hy
      · rw [hh] at hy
        injection hy with hy
        rw [← hy]
        exact progressValue_mono size (by omega)
    · simp

theorem progressReportsF_last (size csize : Nat) (hc : 0 < csize) :
    ∀ fuel offset, offset < size → size ≤ offset + fuel * csize →
    (progressReportsF size csize fuel offset).getLast? = some 100 := by
  intro fuel
  induction fuel with
  | zero =>
    intro o h1 h2
    exact absurd h2 (by omega)
  | succ fuel ih =>
    intro o h1 h2
    unfold progressReportsF
    rw [if_pos ⟨h1, hc⟩]
    by_cases h3 : o + csize < size
    · rcases hx : progressReportsF size csize fuel (o + csize) with _ | ⟨x, xs⟩
      · exfalso
        cases fuel with
        | zero =>
          have hmul : (0 + 1) * csize = csize := by ring
          omega
        | succ fuel2 =>
          unfold progressReportsF at hx
          rw [if_pos ⟨h3, hc⟩] at hx
          exact List.noConfusion hx
      · rw [List.getLast?_cons_cons, ← hx]
        refine ih (o + csize) h3 ?_
        have hmul : (fuel + 1) * csize = fuel * csize + csize := by ring
        omega
    · have hrest : progressReportsF size csize fuel (o + csize) = [] := by
        cases fuel with
        | zero => rfl
        | succ fuel2 =>
          unfold progressReportsF
          rw [if_neg]
          rintro ⟨ha, _⟩
          omega
      rw [hrest, List.getLast?_singleton]
      rw [progressValue_at_end _ _ (by omega) (by omega)]

theorem progressReportsF_le_100 (size csize : Nat) :
    ∀ fuel offset v, v ∈ progressReportsF size csize fuel offset → v ≤ 100 := by
  intro fuel
  induction fuel with
  | zero =>
    intro o v hv
    cases hv
  | succ fuel ih =>
    intro o v hv
    unfold progressReportsF at hv
    split at hv
    · rcases List.mem_cons.mp hv with rfl | hv
      · exact progressValue_le_100 _ _
      · exact ih _ _ hv
    · cases hv

/-- Claim C8 (corrected): the reported progress values are integers bounded
by 100 and monotonically non-decreasing, and the final report at
end-of-input is 100; however 100 can already be reported on an earlier
window once the rounded percentage reaches 100, so 100 is not reported
exactly at end-of-input. -/
theorem claim_C8_amended :
    (∀ size csize offset fuel,
      List.Chain' (· ≤ ·) (progressReportsF size csize fuel offset)) ∧
    (∀ size csize, 0 < size → 0 < csize →
      (progressReports size csize).getLast? = some 100) ∧
    (∀ size csize v, v ∈ progressReports size csize → v ≤ 100) := by
  refine ⟨fun size csize o fuel => progressReportsF_chain size csize fuel o, ?_, ?_⟩
  · intro size csize h1 h2
    unfold progressReports
    refine progressReportsF_last size csize h2 (size + 1) 0 h1 ?_
    have h3 : (size + 1) * 1 ≤ (size + 1) * csize := Nat.mul_le_mul_left _ h2
    omega
  · intro size csize v hv
    exact progressReportsF_le_100 size csize (size + 1) 0 v hv

/-- Witness for claim C8: the report sequence of a 12-byte file in 5-byte
windows is a monotone chain ending in 100. -/
theorem claim_C8_witness :
    List.Chain' (· ≤ ·) (progressReports 12 5) ∧
    (progressReports 12 5).getLast? = some 100 :=
  ⟨claim_C8_amended.1 12 5 0 13, claim_C8_amended.2.1 12 5 (by decide) (by decide)⟩

theorem foldl_colmax_ge (n0 : Nat) (l : List (List (List Char))) :
    ∀ m : Nat, m ≤ l.foldl (fun m r => if r.length ≠ n0 then max m r.length else m) m := by
  induction l with
  | nil =>
    intro m
    simp
  | cons r rs ih =>
    intro m
    rw [List.foldl_cons]
    refine le_trans ?_ (ih _)
    split
    · exact le_max_left _ _
    · exact le_refl _

theorem sampledMaxColumns_ge (rows : List (List (List Char))) :
    (rows.headD []).length ≤ sampledMaxColumns rows := by
  unfold sampledMaxColumns
  exact foldl_colmax_ge _ _ _

/-- Claim C6 (corrected): the header is extended exactly once per session —
append-only and position-stable, covering the largest field count seen
among the first nineteen sampled data rows of the preview — but surplus
fields of records outside that sampled window are not kept: the export
projection reads only the first headers.length fields of a row, so extra
fields of such records are discarded. -/
theorem claim_C6_amended :
    (∀ isTab rows,
      (extendHeaders isTab rows).take (rows.headD []).length = rows.headD [] ∧
      (extendHeaders isTab rows).length =
        max (rows.headD []).length (sampledMaxColumns rows)) ∧
    (∀ hdrs sel row, selectedRow hdrs sel row =
      selectedRow hdrs sel (row.take hdrs.length)) := by
  constructor
  · intro isTab rows
    have hge := sampledMaxColumns_ge rows
    unfold extendHeaders
    by_cases h : (rows.headD []).length < sampledMaxColumns rows
    · rw [if_pos h]
      constructor
      · exact List.take_left _ _
      · simp only [List.length_append, List.length_map, List.length_range]
        omega
    · rw [if_neg h]
      exact ⟨List.take_length _, by omega⟩
  · intro hdrs sel row
    have hpad : paddedRow hdrs row = paddedRow hdrs (row.take hdrs.length) := by
      unfold paddedRow
      apply List.map_congr_left
      intro j hj
      rw [List.mem_range] at hj
      rw [List.getD_eq_getElem?_getD, List.getD_eq_getElem?_getD,
        List.getElem?_take_of_lt hj]
    unfold selectedRow
    rw [hpad]

theorem parseAux_plain (delim : Char) :
    ∀ (v : List Char) (fuel : Nat) (cur : List Char), v.length ≤ fuel →
      (∀ c ∈ v, c ≠ '"' ∧ c ≠ delim) →
      parseCSVLineAux delim fuel v false cur = [jsTrim (cur ++ v)] := by
  intro v
  induction v with
  | nil =>
    intro fuel cur _ _
    cases fuel <;> simp [parseCSVLineAux]
  | cons c rest ih =>
    intro fuel cur hf hc
    have hcq := hc c (List.mem_cons_self c rest)
    cases fuel with
    | zero => simp at hf
    | succ fuel =>
      simp only [parseCSVLineAux]
      rw [if_neg hcq.1, if_neg (by rintro ⟨h1, _⟩; exact hcq.2 h1)]
      rw [ih fuel (cur ++ [c]) (by simp at hf ⊢; omega)
        (fun e he => hc e (List.mem_cons_of_mem c he))]
      simp

theorem parseAux_quoted (delim : Char) :
    ∀ (v : List Char) (fuel : Nat) (cur : List Char),
      (escapeDQ v).length + 1 ≤ fuel →
      parseCSVLineAux delim fuel (escapeDQ v ++ ['"']) true cur = [jsTrim (cur ++ v)] := by
  intro v
  induction v with
  | nil =>
    intro fuel cur hf
    cases fuel with
    | zero => simp [escapeDQ] at hf
    | succ fuel =>
      rw [List.append_nil]
      show parseCSVLineAux delim (fuel + 1) ['"'] true cur = [jsTrim cur]
      have h1 : parseCSVLineAux delim (fuel + 1) ['"'] true cur =
          parseCSVLineAux delim fuel [] false cur := rfl
      rw [h1]
      cases fuel <;> rfl
  | cons c rest ih =>
    intro fuel cur hf
    by_cases hcq : c = '"'
    · subst hcq
      have hlen2 : (escapeDQ ('"' :: rest)).length = (escapeDQ rest).length + 2 := by
        simp [escapeDQ]
      cases fuel with
      | zero => exact absurd hf (by omega)
      | succ fuel =>
        show parseCSVLineAux delim (fuel + 1)
            ('"' :: '"' :: (escapeDQ rest ++ ['"'])) true cur =
          [jsTrim (cur ++ '"' :: rest)]
        have h1 : parseCSVLineAux delim (fuel + 1)
            ('"' :: '"' :: (escapeDQ rest ++ ['"'])) true cur =
            parseCSVLineAux delim fuel (escapeDQ rest ++ ['"']) true (cur ++ ['"']) := rfl
        rw [h1, ih fuel (cur ++ ['"']) (by omega)]
        simp
    · have hlen2 : (escapeDQ (c :: rest)).length = (escapeDQ rest).length + 1 := by
        simp [escapeDQ, hcq]
      cases fuel with
      | zero => exact absurd hf (by omega)
      | succ fuel =>
        rw [show escapeDQ (c :: rest) = c :: escapeDQ rest from by simp [escapeDQ, hcq]]
        simp only [List.cons_append]
        simp only [parseCSVLineAux]
        rw [if_neg hcq]
        rw [if_neg (by simp)]
        rw [ih fuel (cur ++ [c]) (by omega)]
        simp

theorem parse_format_roundtrip (v : List Char) (hv : jsTrim v = v) :
    parseCSVLine (formatCSVLine [v]) ',' = [v] := by
  rw [formatCSVLine_singleton]
  unfold formatField
  by_cases hq : needsQuotesB v = true
  · rw [if_pos hq]
    unfold parseCSVLine
    have hlen : ('"' :: (escapeDQ v ++ ['"'])).length = (escapeDQ v).length + 1 + 1 := by
      simp
    rw [hlen]
    have h1 : parseCSVLineAux ',' ((escapeDQ v).length + 1 + 1)
        ('"' :: (escapeDQ v ++ ['"'])) false [] =
        parseCSVLineAux ',' ((escapeDQ v).length + 1) (escapeDQ v ++ ['"']) true [] := rfl
    rw [h1, parseAux_quoted ',' v ((escapeDQ v).length + 1) [] (le_refl _)]
    rw [List.nil_append, hv]
  · rw [if_neg hq]
    unfold parseCSVLine
    have hnot : ∀ c ∈ v, c ≠ '"' ∧ c ≠ ',' := by
      simp only [needsQuotesB, Bool.or_eq_true, not_or] at hq
      intro c hcmem
      constructor
      · intro hc
        subst hc
        exact hq.1.1.1.1.2 (by simpa using hcmem)
      · intro hc
        subst hc
        exact hq.1.1.1.1.1 (by simpa using hcmem)
    rw [parseAux_plain ',' v v.length [] (le_refl _) hnot]
    rw [List.nil_append, hv]

/-- Claim C4 (corrected): decoding the encoded field with the quote-aware
line parser recovers the original string for every field that carries no
leading or trailing whitespace (the parser trims each field, so fields with
leading or trailing whitespace are not recovered); the claimed concrete
example holds. -/
theorem claim_C4_amended :
    (∀ v : List Char, jsTrim v = v → parseCSVLine (formatCSVLine [v]) ',' = [v]) ∧
    formatCSVLine [c4Field] = c4Encoded ∧ parseCSVLine c4Encoded ',' = [c4Field] := by
  refine ⟨parse_format_roundtrip, by decide, by decide⟩

/-- Witness for claim C4: the round trip at a concrete trim-invariant
field. -/
theorem claim_C4_witness :
    jsTrim "abc".toList = "abc".toList ∧
    parseCSVLine (formatCSVLine ["abc".toList]) ',' = ["abc".toList] :=
  ⟨by decide, claim_C4_amended.1 ("abc".toList) (by decide)⟩

theorem parseCSVLineAux_mem (delim : Char) :
    ∀ (fuel : Nat) (t : List Char) (inQ : Bool) (cur f : List Char),
      f ∈ parseCSVLineAux delim fuel t inQ cur → ∃ x, f = jsTrim x := by
  intro fuel
  induction fuel with
  | zero =>
    intro t inQ cur f hf
    cases t <;> simp [parseCSVLineAux] at hf <;> exact ⟨cur, hf⟩
  | succ fuel ih =>
    intro t inQ cur f hf
    cases t with
    | nil =>
      simp [parseCSVLineAux] at hf
      exact ⟨cur, hf⟩
    | cons c rest =>
      simp only [parseCSVLineAux] at hf
      split_ifs at hf with h1 h2 h3
      · exact ih _ _ _ _ hf
      · exact ih _ _ _ _ hf
      · rcases List.mem_cons.mp hf with rfl | hf
        · exact ⟨cur, rfl⟩
        · exact ih _ _ _ _ hf
      · exact ih _ _ _ _ hf

/-- Claim C10 (confirmed): the quote-aware line parser of the main variant
trims every field it returns, quote-wrapped fields included, so a quoted
field whose content begins or ends with spaces does not survive parsing
intact. -/
theorem claim_C10_trimmed_fields :
    (∀ (line : List Char) (delim : Char) (f : List Char),
      f ∈ parseCSVLine line delim → jsTrim f = f) ∧
    parseCSVLine c10Line ',' = ["a".toList, "b".toList] := by
  constructor
  · intro line delim f hf
    obtain ⟨x, rfl⟩ := parseCSVLineAux_mem delim line.length line false [] f hf
    exact jsTrim_idem x
  · decide

/-- Witness for claim C10: the field returned for the quoted space-padded
input is trim-invariant. -/
theorem claim_C10_witness : jsTrim "a".toList = "a".toList :=
  claim_C10_trimmed_fields.1 c10Line ',' ("a".toList) (by decide)

end FeedFilter
